import Mathlib

/-!
Verification development for the Option++ command-line parsing library
(gkikola/optionpp). The definitions below are a shallow embedding of the
library core: the quote/escape-aware splitter (src/utility.hpp), the
option table lookup (src/parser.cpp, option_group.cpp), the parsing state
machine (parser::parse, parser::parse_argument,
parser::parse_short_option_group in src/parser.cpp) and the typed
argument binder (parser::write_option_argument in src/parser.cpp,
option::write_* in src/option.cpp).

Modelling conventions:
- Tokens and names are lists of characters (Str); the default parser
  configuration strings (short option marker "-", long option marker "--",
  end-of-options marker "--", assignment symbol "=", whitespace delimiters,
  quote characters, escape character) are inlined as constants, exactly as
  set by the default member initializers of class parser.
- A char value 0 models the C++ null character used for an absent short
  name.
- Writes into caller-bound variables are modelled as an append-only list
  of write events (the Store); bound variables are identified by numeric
  ids standing for their addresses.
- C++ exceptions become an Except value paired with the store reached at
  the throw point (caller-visible writes survive an exception).
- The error kinds follow the throw sites of parser.cpp: invalidOption,
  missingArgument, unexpectedArgument for the parse errors, and
  typeMismatch / rangeError for the two kinds of numeric-conversion
  failures raised by write_option_argument.
-/

namespace Optionpp

/-- Character sequence; models std::string contents. -/
abbrev Str := List Char

/-- Convenience conversion from a Lean string literal. -/
def chars (s : String) : Str := s.toList

/-- Default short option name marker, member m_short_option_prefix of class parser. -/
def shortOptPre : Str := ['-']

/-- Default long option name marker, member m_long_option_prefix of class parser. -/
def longOptPre : Str := ['-', '-']

/-- Default end-of-options marker, member m_end_of_options of class parser. -/
def endOfOptions : Str := ['-', '-']

/-- Default assignment symbol, member m_equals of class parser. -/
def equalsSym : Char := '='

/-- Argument types accepted by a bound variable (option::arg_type). -/
inductive ArgType
  | string_arg
  | int_arg
  | uint_arg
  | double_arg
deriving DecidableEq, Repr

/-- One option descriptor (class option, src/option.hpp). The argument
policy is encoded as in the source: the option takes an argument iff
arg_name is nonempty, and the argument is mandatory iff arg_required.
bound_flag models m_is_option_set (address of a bound bool, if any);
bound_var models m_bound_variable (address of a bound argument variable,
if any). -/
structure Opt where
  long_name : Str := []
  short_name : Char := '\x00'
  arg_name : Str := []
  arg_required : Bool := false
  arg_type : ArgType := .string_arg
  bound_flag : Option Nat := none
  bound_var : Option Nat := none
deriving DecidableEq, Repr

/-- A named option group (class option_group). -/
structure OptionGroup where
  name : Str := []
  options : List Opt := []
deriving DecidableEq, Repr

/-- The parser's option table: member m_groups of class parser. -/
abbrev Table := List OptionGroup

/-- One parsed entry (struct parser_result::item). opt_info models the
pointer to the matched descriptor (by value, since the table is read-only
during a parse). -/
structure Item where
  original_text : Str := []
  original_without_argument : Str := []
  is_option : Bool := false
  long_name : Str := []
  short_name : Char := '\x00'
  argument : Str := []
  opt_info : Option Opt := none
deriving DecidableEq, Repr

/-- Parse-time error kinds, following the throw sites in parser.cpp and
the taxonomy of the specification. Each carries the offending option or
token text used in the thrown message. -/
inductive ParseErr
  | invalidOption (name : Str)
  | missingArgument (name : Str)
  | unexpectedArgument (name : Str)
  | typeMismatch (name : Str)
  | rangeError (name : Str)
deriving DecidableEq, Repr

/-- A single write into caller-owned storage. Double writes keep the raw
argument text: no claim inspects a floating-point value, so rounding is
not modelled. -/
inductive WriteEvent
  | boolW (id : Nat) (value : Bool)
  | strW (id : Nat) (value : Str)
  | intW (id : Nat) (value : Int)
  | uintW (id : Nat) (value : Nat)
  | doubleW (id : Nat) (text : Str)
deriving DecidableEq, Repr

/-- Append-only journal of writes into caller-bound variables. -/
abbrev Store := List WriteEvent

/-- Model of option::write_bool: writes only when a bool variable is
bound (m_is_option_set non-null), otherwise a no-op. -/
def writeBool (opt : Opt) (store : Store) : Store :=
  match opt.bound_flag with
  | none => store
  | some id => store ++ [.boolW id true]

/-- Last value written to a bound bool variable, if any. -/
def lookupBool (store : Store) (id : Nat) : Option Bool :=
  store.reverse.findSome? fun e =>
    match e with
    | .boolW i b => if i = id then some b else none
    | _ => none

/-- Last value written to a bound unsigned int variable, if any. -/
def lookupUint (store : Store) (id : Nat) : Option Nat :=
  store.reverse.findSome? fun e =>
    match e with
    | .uintW i v => if i = id then some v else none
    | _ => none

/-- Lookup by long name: parser::find_option(const std::string&).
Scans the groups in order; within each group, option_group::find does a
linear std::find_if on the long name. -/
def find_option_long (t : Table) (long_name : Str) : Option Opt :=
  t.findSome? fun g => g.options.find? fun o => o.long_name == long_name

/-- Lookup by short name: parser::find_option(char). -/
def find_option_short (t : Table) (short_name : Char) : Option Opt :=
  t.findSome? fun g => g.options.find? fun o => o.short_name == short_name

/-! Model of the numeric conversions used by write_option_argument.
std::stoll / std::stoi delegate to strtoll / strtol in the "C" locale:
skip leading whitespace, read an optional sign, then base-10 digits; no
conversion raises invalid_argument, a value outside the result range
raises out_of_range, and the output position is the index just past the
last digit consumed. -/

/-- Result of a std::stoll / std::stoi style conversion. -/
inductive NumParse
  | invalidArg
  | outOfRange
  | ok (v : Int) (pos : Nat)
deriving DecidableEq, Repr

/-- Whitespace recognized by isspace in the "C" locale. -/
def isCSpace (c : Char) : Bool :=
  c == ' ' || c == '\t' || c == '\n' || c == '\x0b' || c == '\x0c' || c == '\r'

/-- Numeric value of a digit string. -/
def digitsVal (ds : Str) : Nat :=
  ds.foldl (fun n c => n * 10 + (c.toNat - 48)) 0

/-- Largest long long value (64-bit two's complement). -/
def llongMax : Int := 9223372036854775807

/-- Smallest long long value. -/
def llongMin : Int := -9223372036854775808

/-- Largest int value (32 bits). -/
def intMax : Int := 2147483647

/-- Smallest int value. -/
def intMin : Int := -2147483648

/-- Largest unsigned int value (std::numeric_limits of unsigned). -/
def uintMax : Int := 4294967295

/-- Model of std::stoll on a character sequence (base 10). -/
def stollOn (s : Str) : NumParse :=
  let ws := s.takeWhile isCSpace
  let r1 := s.dropWhile isCSpace
  let signLen : Nat :=
    match r1 with
    | '-' :: _ => 1
    | '+' :: _ => 1
    | _ => 0
  let neg : Bool :=
    match r1 with
    | '-' :: _ => true
    | _ => false
  let digits := (r1.drop signLen).takeWhile Char.isDigit
  if digits.isEmpty then .invalidArg
  else
    let mag : Int := Int.ofNat (digitsVal digits)
    let v : Int := if neg then -mag else mag
    if v > llongMax ∨ v < llongMin then .outOfRange
    else .ok v (ws.length + signLen + digits.length)

/-- Model of std::stoi: same grammar, with out_of_range raised when the
value does not fit in int. -/
def stoiOn (s : Str) : NumParse :=
  match stollOn s with
  | .ok v pos => if v > intMax ∨ v < intMin then .outOfRange else .ok v pos
  | r => r

/-- Model of the std::stod "C"-locale decimal grammar: leading
whitespace, optional sign, then either digits with an optional fractional
part or a fractional part alone, followed by an optional exponent; the
spellings inf, infinity and nan are also accepted. Returns the number of
characters consumed, or none when no conversion is possible.
Hexadecimal floating literals and double overflow are not modelled; no
claim exercises them (the only claim quantifying over double bindings
resolves an empty argument text). -/
def stodOn (s : Str) : Option Nat :=
  let ws := s.takeWhile isCSpace
  let r1 := s.dropWhile isCSpace
  let signLen : Nat :=
    match r1 with
    | '-' :: _ => 1
    | '+' :: _ => 1
    | _ => 0
  let r2 := r1.drop signLen
  let lower := r2.map Char.toLower
  if lower.take 8 == chars "infinity" then some (ws.length + signLen + 8)
  else if lower.take 3 == chars "inf" then some (ws.length + signLen + 3)
  else if lower.take 3 == chars "nan" then some (ws.length + signLen + 3)
  else
    let intDigits := r2.takeWhile Char.isDigit
    let r3 := r2.drop intDigits.length
    let fracLen : Nat :=
      match r3 with
      | '.' :: tl => 1 + (tl.takeWhile Char.isDigit).length
      | _ => 0
    if intDigits.isEmpty ∧ fracLen ≤ 1 then none
    else
      let mantLen := intDigits.length + fracLen
      let r4 := r2.drop mantLen
      let expLen : Nat :=
        match r4 with
        | 'e' :: tl =>
          let esign := match tl with | '-' :: _ => 1 | '+' :: _ => 1 | _ => 0
          let eds := (tl.drop esign).takeWhile Char.isDigit
          if eds.isEmpty then 0 else 1 + esign + eds.length
        | 'E' :: tl =>
          let esign := match tl with | '-' :: _ => 1 | '+' :: _ => 1 | _ => 0
          let eds := (tl.drop esign).takeWhile Char.isDigit
          if eds.isEmpty then 0 else 1 + esign + eds.length
        | _ => 0
      some (ws.length + signLen + mantLen + expLen)

/-- Model of parser::write_option_argument (parser.cpp lines 146-205).
No-op when no argument variable is bound. For a bound unsigned target the
code calls stoll, rejects a partial conversion (typeMismatch, from the
caught invalid_argument), rejects negative values and values above
unsigned range (rangeError), then writes the cast value. For int and
double targets a partial conversion is likewise typeMismatch; out-of-range
int conversions are rangeError. String targets are copied verbatim. The
error carries item.original_without_argument, the option text used in the
thrown messages. -/
def write_option_argument (opt : Opt) (item : Item) (store : Store) :
    Except ParseErr Store :=
  match opt.bound_var with
  | none => .ok store
  | some id =>
    let optName := item.original_without_argument
    match opt.arg_type with
    | .uint_arg =>
      match stollOn item.argument with
      | .invalidArg => .error (.typeMismatch optName)
      | .outOfRange => .error (.rangeError optName)
      | .ok v pos =>
        if pos ≠ item.argument.length then .error (.typeMismatch optName)
        else if v < 0 then .error (.rangeError optName)
        else if v > uintMax then .error (.rangeError optName)
        else .ok (store ++ [.uintW id v.toNat])
    | .int_arg =>
      match stoiOn item.argument with
      | .invalidArg => .error (.typeMismatch optName)
      | .outOfRange => .error (.rangeError optName)
      | .ok v pos =>
        if pos ≠ item.argument.length then .error (.typeMismatch optName)
        else .ok (store ++ [.intW id v])
    | .double_arg =>
      match stodOn item.argument with
      | none => .error (.typeMismatch optName)
      | some pos =>
        if pos ≠ item.argument.length then .error (.typeMismatch optName)
        else .ok (store ++ [.doubleW id item.argument])
    | .string_arg => .ok (store ++ [.strW id item.argument])

/-! The parsing state machine (parser::parse, parser::parse_argument,
parser::parse_short_option_group). -/

/-- State of the token loop between tokens: member prev_type in
parser::parse, enum parser::cl_arg_type. -/
inductive ClArgType
  | non_option
  | end_indicator
  | arg_required
  | arg_optional
  | no_arg
deriving DecidableEq, Repr

/-- Model of parser::is_end_indicator with the default configuration. -/
def is_end_indicator (argument : Str) : Bool :=
  argument == endOfOptions

/-- Model of parser::is_long_option: strictly longer than the long option
marker and starting with it (utility::is_substr_at_pos at position 0). -/
def is_long_option (argument : Str) : Bool :=
  decide (longOptPre.length < argument.length) && longOptPre.isPrefixOf argument

/-- Model of parser::is_short_option_group. -/
def is_short_option_group (argument : Str) : Bool :=
  decide (shortOptPre.length < argument.length) && shortOptPre.isPrefixOf argument

/-- Table-independent part of parser::parse_argument: the end-of-options
check, the split of the token at the first assignment symbol, the
malformed bare-assignment check, and the dispatch by token shape. -/
inductive TokenClass
  | endMarker
  | malformedAssign (spec : Str)
  | longOpt (original : Str) (spec : Str) (name : Str) (inline : Option Str)
  | shortGroup (cluster : Str) (optArg : Str) (hasArg : Bool)
  | plain (original : Str)
deriving DecidableEq, Repr

/-- Classification performed at the top of parser::parse_argument
(parser.cpp lines 276-306 and the branch heads at 306, 343, 347): find
the first assignment symbol, reject a bare marker followed by the
assignment symbol, then test the pre-assignment part with is_long_option
and is_short_option_group. -/
def classifyToken (argument : Str) : TokenClass :=
  if is_end_indicator argument then .endMarker
  else
    match argument.findIdx? (· == equalsSym) with
    | none =>
      if is_long_option argument then
        .longOpt argument argument (argument.drop longOptPre.length) none
      else if is_short_option_group argument then
        .shortGroup (argument.drop shortOptPre.length) [] false
      else .plain argument
    | some p =>
      let spec := argument.take p
      let inlineVal := argument.drop (p + 1)
      if spec = shortOptPre ∨ spec = longOptPre then
        .malformedAssign (spec ++ [equalsSym])
      else if is_long_option spec then
        .longOpt argument spec (spec.drop longOptPre.length) (some inlineVal)
      else if is_short_option_group spec then
        .shortGroup (spec.drop shortOptPre.length) inlineVal true
      else .plain argument

/-- Outcome type of one classification or consumption step: either an
error with the store at the throw point, or the updated entry list and
loop state together with the store. -/
abbrev StepResult := Except ParseErr (List Item × ClArgType) × Store

/-- Emission of a short-cluster entry carrying an argument (the push
with preceding write_option_argument call at parser.cpp lines 391-392 and
401, 408): invoke the binder, propagating its error with the store as of
the throw point, else append the entry. -/
def emitWithArg (opt : Opt) (info : Item) (result : List Item)
    (store1 : Store) : StepResult :=
  match write_option_argument opt info store1 with
  | .error e => (.error e, store1)
  | .ok st2 => (.ok (result ++ [info], .no_arg), st2)

/-- Model of parser::parse_short_option_group (parser.cpp lines 356-425),
recursing over the cluster characters. Per character: unknown short name
throws invalidOption; otherwise the presence flag is written immediately
(opt->write_bool(true), line 378). An argument-taking option consumes the
whole remainder of the cluster as its argument (re-attaching the
assignment symbol and trailing text when the token had one), or, as the
last character, takes the assignment value or defers to the next token;
options taking no argument emit an entry and continue, except that a
trailing assignment with no argument-taking option throws
unexpectedArgument. -/
def parse_short_option_group (t : Table) :
    Str → Str → Bool → List Item → Store → StepResult
  | [], _, _, result, store => (.ok (result, .no_arg), store)
  | c :: rest, optArg, hasArg, result, store =>
    match find_option_short t c with
    | none => (.error (.invalidOption (shortOptPre ++ [c])), store)
    | some opt =>
      let base : Item :=
        { original_text := shortOptPre ++ [c],
          original_without_argument := shortOptPre ++ [c],
          is_option := true,
          long_name := opt.long_name,
          short_name := c,
          opt_info := some opt }
      let store1 := writeBool opt store
      if opt.arg_name ≠ [] then
        if ¬ rest.isEmpty then
          let argText := rest ++ (if hasArg then equalsSym :: optArg else [])
          emitWithArg opt
            { base with
              argument := argText,
              original_text := base.original_text ++ argText }
            result store1
        else
          if hasArg then
            emitWithArg opt
              { base with
                original_text := base.original_text ++ equalsSym :: optArg,
                argument := optArg }
              result store1
          else if opt.arg_required then
            (.ok (result ++ [base], .arg_required), store1)
          else
            (.ok (result ++ [base], .arg_optional), store1)
      else
        if rest.isEmpty ∧ hasArg then
          (.error (.unexpectedArgument (shortOptPre ++ [c])), store1)
        else
          parse_short_option_group t rest optArg hasArg (result ++ [base]) store1

/-- Emission of a long-option entry carrying an assignment value
(parser.cpp lines 339-342): invoke the binder, then write the presence
flag and append the entry; a binder error propagates with the store as of
the throw point (the presence flag is not yet written). -/
def emitLongAssign (opt : Opt) (info : Item) (result : List Item)
    (store : Store) : StepResult :=
  match write_option_argument opt info store with
  | .error e => (.error e, store)
  | .ok st1 => (.ok (result ++ [info], .no_arg), writeBool opt st1)

/-- Long-option arm of parser::parse_argument (parser.cpp lines 306-342):
look up the name, decide the loop state from the argument policy and the
presence of an assignment value, invoke the binder on an assignment value
(write_option_argument, line 340), write the presence flag (line 341) and
append the entry. -/
def handleLong (t : Table) (original spec name : Str) (inlineVal : Option Str)
    (result : List Item) (store : Store) : StepResult :=
  match find_option_long t name with
  | none => (.error (.invalidOption spec), store)
  | some opt =>
    let info : Item :=
      { original_text := original,
        original_without_argument := spec,
        is_option := true,
        long_name := name,
        short_name := opt.short_name,
        argument := inlineVal.getD [],
        opt_info := some opt }
    if opt.arg_name ≠ [] then
      match inlineVal with
      | none =>
        let ty := if opt.arg_required then ClArgType.arg_required else .arg_optional
        (.ok (result ++ [info], ty), writeBool opt store)
      | some _ => emitLongAssign opt info result store
    else
      match inlineVal with
      | some _ => (.error (.unexpectedArgument spec), store)
      | none => (.ok (result ++ [info], .no_arg), writeBool opt store)

/-- Model of parser::parse_argument (parser.cpp lines 274-354). -/
def parse_argument (t : Table) (argument : Str) (result : List Item)
    (store : Store) : StepResult :=
  match classifyToken argument with
  | .endMarker => (.ok (result, .end_indicator), store)
  | .malformedAssign spec => (.error (.invalidOption spec), store)
  | .longOpt original spec name inlineVal =>
    handleLong t original spec name inlineVal result store
  | .shortGroup cluster optArg hasArg =>
    parse_short_option_group t cluster optArg hasArg result store
  | .plain original =>
    (.ok (result ++ [{ original_text := original, is_option := false }], .non_option), store)

/-- Text of the most recently appended entry, used in the missing-argument
messages (result.back().original_text). -/
def lastOriginal (result : List Item) : Str :=
  (result.getLast?.map Item.original_text).getD []

/-- Resolution of a pending standalone argument (parser.cpp lines
225-231): the binder is invoked on the updated entry when it points at a
descriptor, propagating its error with the store as of the throw
point. -/
def consumePending (last' : Item) (result' : List Item) (store : Store) :
    StepResult :=
  match last'.opt_info with
  | some opt =>
    match write_option_argument opt last' store with
    | .error e => (.error e, store)
    | .ok st' => (.ok (result', .non_option), st')
  | none => (.ok (result', .non_option), store)

/-- One full disposition of one token inside the while loop of
parser::parse (parser.cpp lines 216-251). When a standalone argument is
pending, a token not recognizable as an option or the end marker is
consumed as the argument of the most recent entry (appending to its
original text and invoking the binder, consumePending); otherwise a
mandatory argument is missing, or an optional one is left empty and the
same token is re-evaluated from the top of the classification (the
continue at line 239, collapsed here into the final else branches). After
the end marker every token is appended verbatim as a non-option entry. -/
def parseStep (t : Table) (arg : Str) (prev : ClArgType) (result : List Item)
    (store : Store) : StepResult :=
  if prev = .arg_required ∨ prev = .arg_optional then
    if ¬ is_end_indicator arg ∧ ¬ is_long_option arg ∧ ¬ is_short_option_group arg then
      match result.getLast? with
      | none => (.ok (result, .non_option), store)
      | some last =>
        let last' := { last with
          argument := arg,
          original_text := last.original_text ++ ' ' :: arg }
        consumePending last' (result.dropLast ++ [last']) store
    else if prev = .arg_required then
      (.error (.missingArgument (lastOriginal result)), store)
    else
      parse_argument t arg result store
  else if prev = .end_indicator then
    (.ok (result ++ [{ original_text := arg, is_option := false }], .end_indicator), store)
  else
    parse_argument t arg result store

/-- The token loop of parser::parse, without the trailing
mandatory-argument check. -/
def runTokens (t : Table) :
    List Str → ClArgType → List Item → Store → StepResult
  | [], prev, result, store => (.ok (result, prev), store)
  | arg :: rest, prev, result, store =>
    match parseStep t arg prev result store with
    | (.error e, st) => (.error e, st)
    | (.ok (res', prev'), st) => runTokens t rest prev' res' st

/-- Model of parser::parse over an explicit token sequence (parser.cpp
lines 207-261, with ignore_first handled by the caller): run the loop
from the scanning state, then raise missingArgument if a mandatory
argument is still pending at end of input (lines 254-258). -/
def parse (t : Table) (tokens : List Str) :
    Except ParseErr (List Item) × Store :=
  match runTokens t tokens .non_option [] [] with
  | (.error e, st) => (.error e, st)
  | (.ok (res, prev), st) =>
    if prev = .arg_required then
      (.error (.missingArgument (lastOriginal res)), st)
    else (.ok res, st)

/-! The tokenizer: optionpp::utility::split (src/utility.hpp lines
144-198). -/

/-- Loop state of utility::split across characters. -/
structure SplitState where
  escape_next : Bool := false
  in_quotes : Bool := false
  quote_index : Nat := 0
  cur_token : Str := []
  acc : List Str := []
deriving DecidableEq, Repr

/-- One character step of utility::split. Inside quotes the closing quote
(the character at quote_index of the quote set) ends the quoted span, an
unescaped escape character defers to the next character, and everything
else is copied. Outside quotes a delimiter ends the current token
(emitted only when nonempty, unless allow_empty), an unescaped escape
character defers, an escaped character is copied verbatim, an opening
quote records its index, and other characters are copied. -/
def splitStep (delims quotes : Str) (escape_char : Char) (allow_empty : Bool)
    (st : SplitState) (c : Char) : SplitState :=
  if st.in_quotes then
    if st.escape_next ∨ c ≠ quotes.getD st.quote_index '\x00' then
      if ¬ st.escape_next ∧ c = escape_char then
        { st with escape_next := true }
      else
        { st with cur_token := st.cur_token ++ [c], escape_next := false }
    else
      { st with in_quotes := false }
  else
    if st.escape_next ∨ ¬ delims.contains c then
      if ¬ st.escape_next ∧ c = escape_char then
        { st with escape_next := true }
      else if st.escape_next then
        { st with cur_token := st.cur_token ++ [c], escape_next := false }
      else
        match quotes.findIdx? (· == c) with
        | some qi => { st with in_quotes := true, quote_index := qi }
        | none => { st with cur_token := st.cur_token ++ [c] }
    else
      if st.cur_token ≠ [] ∨ allow_empty then
        { st with acc := st.acc ++ [st.cur_token], cur_token := [] }
      else
        { st with cur_token := [] }

/-- Model of utility::split with explicit configuration: fold the step
over the input, then emit any leftover token (utility.hpp lines 195-197). -/
def splitWith (delims quotes : Str) (escape_char : Char) (allow_empty : Bool)
    (s : Str) : List Str :=
  let st := s.foldl (splitStep delims quotes escape_char allow_empty) {}
  if st.cur_token ≠ [] ∨ allow_empty then st.acc ++ [st.cur_token] else st.acc

/-- Default delimiters of utility::split and of the parser
(string to split defaults, member m_delims). -/
def defaultDelims : Str := [' ', '\t', '\n', '\r']

/-- Default quote characters of utility::split. -/
def defaultQuotes : Str := ['"', '\'']

/-- Default escape character of utility::split. -/
def defaultEscape : Char := '\\'

/-- utility::split with all defaulted parameters (allow_empty false). -/
def split (s : Str) : List Str :=
  splitWith defaultDelims defaultQuotes defaultEscape false s

/-- splitStep at the default configuration. -/
def splitStepDefault (st : SplitState) (c : Char) : SplitState :=
  splitStep defaultDelims defaultQuotes defaultEscape false st c

/-! Registration of options, for the lookup-order claim: the public ways
a descriptor enters the table are parser::add_option (which targets the
nameless default group, creating it at the back on first use) and
parser::group(name).add_option (parser::group returns the group with the
given name, creating it at the back when absent). -/

/-- One registration action against the table. -/
inductive RegOp
  | addOpt (o : Opt)
  | groupAdd (gname : Str) (o : Opt)
deriving DecidableEq, Repr

/-- Append an option to the group with the given name, creating the group
at the back of the table when absent. Group names are unique in any table
built this way, so the forward search of parser::find_group and the
reverse search of parser::group locate the same group. -/
def addToNamed : Table → Str → Opt → Table
  | [], g, o => [{ name := g, options := [o] }]
  | grp :: rest, g, o =>
    if grp.name = g then { grp with options := grp.options ++ [o] } :: rest
    else grp :: addToNamed rest g o

/-- Apply one registration action. -/
def applyReg (t : Table) (op : RegOp) : Table :=
  match op with
  | .addOpt o => addToNamed t [] o
  | .groupAdd g o => addToNamed t g o

/-- Table resulting from a registration sequence, starting from the empty
table of a default-constructed parser. -/
def buildTable (ops : List RegOp) : Table :=
  ops.foldl applyReg []

/-- The descriptor registered by an action. -/
def regOpt : RegOp → Opt
  | .addOpt o => o
  | .groupAdd _ o => o

/-- True for plain add_option registrations (default group). -/
def isAddOpt : RegOp → Bool
  | .addOpt _ => true
  | .groupAdd _ _ => false

/-- First descriptor in global registration order with the given long
name. -/
def firstRegLong (ops : List RegOp) (n : Str) : Option Opt :=
  (ops.map regOpt).find? fun o => o.long_name == n

/-- All descriptors of the table in scan order: groups in creation order,
options within a group in registration order. -/
def flattenTable (t : Table) : List Opt :=
  (t.map OptionGroup.options).flatten

/-! Theorems. -/

/-- Closing-quote character of the default quote set is never the default
escape character, whatever index is recorded. -/
lemma default_quote_ne_escape (qi : Nat) :
    ¬ defaultEscape = defaultQuotes[qi]?.getD '\x00' := by
  match qi with
  | 0 => decide
  | 1 => decide
  | n + 2 => simp [defaultQuotes, defaultEscape]

/-- With the default configuration, an escape character makes the next
character literal: from any non-escaping state, in or out of quotes,
stepping over the escape character and then over any character c appends
c verbatim to the current token and leaves the rest of the state as it
was. -/
lemma escape_makes_literal (st : SplitState) (c : Char)
    (h : st.escape_next = false) :
    splitStepDefault (splitStepDefault st defaultEscape) c =
      { st with cur_token := st.cur_token ++ [c] } := by
  obtain ⟨esc, inq, qi, tok, acc⟩ := st
  simp only at h
  subst h
  cases inq with
  | true =>
    have hq : ¬ defaultEscape = defaultQuotes[qi]?.getD '\x00' :=
      default_quote_ne_escape qi
    simp [splitStepDefault, splitStep, hq]
  | false =>
    have hd : ¬ defaultEscape ∈ defaultDelims := by decide
    simp [splitStepDefault, splitStep, hd]

/-- C6. With the default delimiters, quote characters and escape
character, split of the string arg1 "argument number 2" arg3 yields the
three tokens arg1 / argument number 2 / arg3, split of the string with
two escaped spaces yields the single token this is one, and in general
the escape character makes the following character literal (copied
verbatim into the current token from any non-escaping state, inside or
outside quotes). -/
theorem split_escape_behavior :
    split (chars "arg1 \"argument number 2\" arg3") =
      [chars "arg1", chars "argument number 2", chars "arg3"] ∧
    split (chars "this\\ is\\ one") = [chars "this is one"] ∧
    ∀ (st : SplitState) (c : Char), st.escape_next = false →
      splitStepDefault (splitStepDefault st defaultEscape) c =
        { st with cur_token := st.cur_token ++ [c] } :=
  ⟨by decide, by decide, fun st c h => escape_makes_literal st c h⟩

/-- C6 witness: the escape-literal property applied at the initial state
and the character x. -/
theorem split_escape_behavior_witness :
    splitStepDefault (splitStepDefault {} defaultEscape) 'x' =
      { cur_token := ['x'] } :=
  split_escape_behavior.2.2 {} 'x' rfl

/-- Lookup by long name is the first match over the table flattened in
scan order: groups in creation order, options within a group in
registration order. -/
lemma find_option_long_flatten (t : Table) (n : Str) :
    find_option_long t n = (flattenTable t).find? (fun o => o.long_name == n) := by
  rw [find_option_long, flattenTable, List.find?_flatten, List.findSome?_map]
  rfl

/-- Lookup by short name is likewise the first match in flattened scan
order. -/
lemma find_option_short_flatten (t : Table) (c : Char) :
    find_option_short t c = (flattenTable t).find? (fun o => o.short_name == c) := by
  rw [find_option_short, flattenTable, List.find?_flatten, List.findSome?_map]
  rfl

/-- Registration sequences consisting solely of add_option calls build a
single default group holding the descriptors in registration order. -/
lemma buildTable_addOnly (ops : List RegOp) (os : List Opt)
    (h : ∀ op ∈ ops, isAddOpt op = true) :
    List.foldl applyReg [{ name := [], options := os }] ops =
      [{ name := [], options := os ++ ops.map regOpt }] := by
  induction ops generalizing os with
  | nil => simp
  | cons op rest ih =>
    cases op with
    | addOpt o =>
      have hrest : ∀ op ∈ rest, isAddOpt op = true := fun op hm => h op (by simp [hm])
      have step : applyReg [{ name := [], options := os }] (.addOpt o) =
          [{ name := [], options := os ++ [o] }] := by
        simp [applyReg, addToNamed]
      rw [List.foldl_cons, step, ih (os ++ [o]) hrest]
      simp [regOpt]
    | groupAdd g o =>
      have : isAddOpt (RegOp.groupAdd g o) = true := h _ (by simp)
      simp [isAddOpt] at this

/-- First option registered into group a, carrying the long name x. -/
def regSampleX : Opt := { long_name := chars "x" }

/-- First-registered descriptor with the long name dup, placed in
group b. -/
def regSampleDup1 : Opt := { long_name := chars "dup", short_name := 'p' }

/-- Later-registered descriptor with the same long name dup, placed in
the earlier-created group a. -/
def regSampleDup2 : Opt := { long_name := chars "dup", short_name := 'q' }

/-- A registration sequence using two named groups: group a is created
first, the first dup goes into group b, the second dup into group a. -/
def regSampleOps : List RegOp :=
  [.groupAdd (chars "a") regSampleX,
   .groupAdd (chars "b") regSampleDup1,
   .groupAdd (chars "a") regSampleDup2]

/-- C8 counterexample: lookup is not a scan in global registration order.
In the table built by regSampleOps, the first descriptor registered under
the long name dup is regSampleDup1, yet find_option_long returns
regSampleDup2, a distinct, later-registered descriptor — so the
later-registered duplicate is reachable and the first-registered one is
not returned. -/
theorem lookup_registration_order_counterexample :
    firstRegLong regSampleOps (chars "dup") = some regSampleDup1 ∧
    find_option_long (buildTable regSampleOps) (chars "dup") = some regSampleDup2 ∧
    regSampleDup1 ≠ regSampleDup2 := by
  refine ⟨by decide, by decide, by decide⟩

/-- C8 amended: looking up a long or short name scans the table linearly
in flattened scan order — groups in creation order, and options within
each group in registration order — returning the first match; when every
registration goes through add_option (so all descriptors live in the
single default group), this scan order is exactly global registration
order, and for duplicated names the first-registered descriptor is
returned, the later one being unreachable. -/
theorem lookup_first_match_in_scan_order :
    (∀ (t : Table) (n : Str),
      find_option_long t n = (flattenTable t).find? (fun o => o.long_name == n)) ∧
    (∀ (t : Table) (c : Char),
      find_option_short t c = (flattenTable t).find? (fun o => o.short_name == c)) ∧
    (∀ (ops : List RegOp) (n : Str), (∀ op ∈ ops, isAddOpt op = true) →
      find_option_long (buildTable ops) n = firstRegLong ops n) := by
  refine ⟨find_option_long_flatten, find_option_short_flatten, ?_⟩
  intro ops n h
  cases ops with
  | nil => rfl
  | cons op rest =>
    cases op with
    | addOpt o =>
      have hrest : ∀ op ∈ rest, isAddOpt op = true := fun op hm => h op (by simp [hm])
      have hb : buildTable (RegOp.addOpt o :: rest) =
          [{ name := [], options := [o] ++ rest.map regOpt }] := by
        rw [buildTable, List.foldl_cons]
        have step : applyReg [] (.addOpt o) = [{ name := [], options := [o] }] := rfl
        rw [step, buildTable_addOnly rest [o] hrest]
      rw [hb, find_option_long_flatten]
      simp [flattenTable, firstRegLong, regOpt]
    | groupAdd g o =>
      have : isAddOpt (RegOp.groupAdd g o) = true := h _ (by simp)
      simp [isAddOpt] at this

/-- C8 amended witness: the flattened-scan-order description and the
single-group registration-order property, applied at the sample table of
the counterexample and at an add_option-only sequence. -/
theorem lookup_first_match_in_scan_order_witness :
    find_option_long (buildTable [RegOp.addOpt regSampleDup1, RegOp.addOpt regSampleDup2])
        (chars "dup") =
      firstRegLong [RegOp.addOpt regSampleDup1, RegOp.addOpt regSampleDup2] (chars "dup") :=
  lookup_first_match_in_scan_order.2.2
    [RegOp.addOpt regSampleDup1, RegOp.addOpt regSampleDup2] (chars "dup")
    (by decide)

/-- C1. In every parser whose table resolves the short name c to an
option taking an optional argument and the long name version to an option
taking no argument, parsing the tokens -c --version yields exactly two
entries: first the option entry for c with an empty argument, then the
option entry for version. The lookahead token is not consumed as the
argument of c; it is re-evaluated from the top of the classification and
recognized as its own option. -/
theorem optional_lookahead (t : Table) (co vo : Opt)
    (hc : find_option_short t 'c' = some co)
    (hcArg : co.arg_name ≠ [])
    (hcOpt : co.arg_required = false)
    (hv : find_option_long t (chars "version") = some vo)
    (hvNone : vo.arg_name = []) :
    (parse t [chars "-c", chars "--version"]).1 =
      .ok [{ original_text := ['-', 'c'], original_without_argument := ['-', 'c'],
             is_option := true, long_name := co.long_name, short_name := 'c',
             argument := [], opt_info := some co },
           { original_text := chars "--version",
             original_without_argument := chars "--version",
             is_option := true, long_name := chars "version",
             short_name := vo.short_name, argument := [], opt_info := some vo }] := by
  have e1 : classifyToken (chars "-c") = .shortGroup ['c'] [] false := by decide
  have e2 : classifyToken (chars "--version") =
      .longOpt (chars "--version") (chars "--version") (chars "version") none := by decide
  simp +decide [parse, runTokens, parseStep, parse_argument, e1, e2,
    parse_short_option_group, handleLong, hc, hv, hcArg, hcOpt, hvNone]

/-- Sample option with short name c taking an optional argument. -/
def wOptC : Opt := { short_name := 'c', arg_name := chars "ARG" }

/-- Sample option with long name version taking no argument. -/
def wOptVersion : Opt := { long_name := chars "version" }

/-- Sample table for the optional-lookahead scenario. -/
def wTableCV : Table := [{ options := [wOptC, wOptVersion] }]

/-- C1 witness: the lookahead behavior at a concrete table. -/
theorem optional_lookahead_witness :
    (parse wTableCV [chars "-c", chars "--version"]).1 =
      .ok [{ original_text := ['-', 'c'], original_without_argument := ['-', 'c'],
             is_option := true, long_name := [], short_name := 'c',
             argument := [], opt_info := some wOptC },
           { original_text := chars "--version",
             original_without_argument := chars "--version",
             is_option := true, long_name := chars "version",
             short_name := '\x00', argument := [], opt_info := some wOptVersion }] :=
  optional_lookahead wTableCV wOptC wOptVersion rfl (by decide) rfl rfl rfl

/-- C2. In every table registering a, b and c as short options taking no
argument, parsing the single token -abc produces exactly the same parse
outcome — same entries, in the same order, with the same long and short
names, and even the same bound-variable writes — as parsing -a -b -c as
three separate tokens. -/
theorem cluster_eq_separate (t : Table) (oa ob oc : Opt)
    (ha : find_option_short t 'a' = some oa) (haN : oa.arg_name = [])
    (hb : find_option_short t 'b' = some ob) (hbN : ob.arg_name = [])
    (hc : find_option_short t 'c' = some oc) (hcN : oc.arg_name = []) :
    parse t [chars "-abc"] = parse t [chars "-a", chars "-b", chars "-c"] := by
  have e1 : classifyToken (chars "-abc") = .shortGroup ['a', 'b', 'c'] [] false := by decide
  have e2 : classifyToken (chars "-a") = .shortGroup ['a'] [] false := by decide
  have e3 : classifyToken (chars "-b") = .shortGroup ['b'] [] false := by decide
  have e4 : classifyToken (chars "-c") = .shortGroup ['c'] [] false := by decide
  simp +decide [parse, runTokens, parseStep, parse_argument, e1, e2, e3, e4,
    parse_short_option_group, ha, hb, hc, haN, hbN, hcN]

/-- Sample flag options a, b, c for the cluster-expansion scenario. -/
def wTableABC : Table :=
  [{ options := [{ short_name := 'a' }, { short_name := 'b' }, { short_name := 'c' }] }]

/-- C2 witness: cluster expansion equals separate parsing at a concrete
table. -/
theorem cluster_eq_separate_witness :
    parse wTableABC [chars "-abc"] =
      parse wTableABC [chars "-a", chars "-b", chars "-c"] :=
  cluster_eq_separate wTableABC _ _ _ rfl rfl rfl rfl rfl rfl

/-- C3. Missing mandatory arguments: in every parser resolving the long
name output to an option with a required argument, parsing --output alone
raises missingArgument; in general a pending required argument raises
missingArgument when the next token is recognizable as the end marker, a
long option or a short option group (whatever follows it), and reaching
the end of input still awaiting a required argument raises
missingArgument; but parsing --output= (assignment present, value empty)
never raises missingArgument. -/
theorem missing_argument_rules :
    (∀ (t : Table) (oo : Opt),
      find_option_long t (chars "output") = some oo → oo.arg_name ≠ [] →
      oo.arg_required = true →
      (parse t [chars "--output"]).1 = .error (.missingArgument (chars "--output"))) ∧
    (∀ (t : Table) (res : List Item) (store : Store) (tok : Str) (rest : List Str),
      (is_end_indicator tok ∨ is_long_option tok ∨ is_short_option_group tok) →
      runTokens t (tok :: rest) .arg_required res store =
        (.error (.missingArgument (lastOriginal res)), store)) ∧
    (∀ (t : Table) (ts : List Str) (res : List Item) (st : Store),
      runTokens t ts .non_option [] [] = (.ok (res, .arg_required), st) →
      (parse t ts).1 = .error (.missingArgument (lastOriginal res))) ∧
    (∀ (t : Table) (oo : Opt),
      find_option_long t (chars "output") = some oo → oo.arg_name ≠ [] →
      ∀ s, (parse t [chars "--output="]).1 ≠ .error (.missingArgument s)) := by
  refine ⟨?_, ?_, ?_, ?_⟩
  · intro t oo hf hArg hReq
    have e1 : classifyToken (chars "--output") =
        .longOpt (chars "--output") (chars "--output") (chars "output") none := by decide
    simp +decide [parse, runTokens, parseStep, parse_argument, e1, handleLong,
      hf, hArg, hReq, lastOriginal]
  · intro t res store tok rest h
    rcases h with h | h | h <;> simp [runTokens, parseStep, h]
  · intro t ts res st h
    simp [parse, h]
  · intro t oo hf hArg s
    have e1 : classifyToken (chars "--output=") =
        .longOpt (chars "--output=") (chars "--output") (chars "output") (some []) := by decide
    cases hbv : oo.bound_var with
    | none =>
      simp +decide [parse, runTokens, parseStep, parse_argument, e1, handleLong,
        emitLongAssign, hf, hArg, write_option_argument, hbv]
    | some id =>
      cases hat : oo.arg_type <;>
        simp +decide [parse, runTokens, parseStep, parse_argument, e1, handleLong,
          emitLongAssign, hf, hArg, write_option_argument, hbv, hat, stollOn, stoiOn,
          stodOn]

/-- Sample option with long name output and a mandatory argument. -/
def wOptOutput : Opt :=
  { long_name := chars "output", arg_name := chars "FILE", arg_required := true }

/-- Sample table for the missing-argument scenario. -/
def wTableOutput : Table := [{ options := [wOptOutput] }]

/-- C3 witness: parsing --output alone against the concrete table raises
missingArgument. -/
theorem missing_argument_rules_witness :
    (parse wTableOutput [chars "--output"]).1 =
      .error (.missingArgument (chars "--output")) :=
  missing_argument_rules.1 wTableOutput wOptOutput rfl (by decide) rfl

/-- C4. Unsigned-integer binding: in every parser resolving the long name
indent to an argument-taking option bound to an unsigned integer
variable, parsing --indent=-32 raises rangeError, parsing --indent=two
raises typeMismatch and parsing --indent=13 succeeds and writes 13 to the
bound variable. In general, for any option bound to an unsigned target,
a text with no numeric conversion raises typeMismatch, an out-of-range
long long conversion raises rangeError, a conversion not consuming the
entire text raises typeMismatch, a negative full conversion or one above
the unsigned width raises rangeError, and a full in-range conversion
writes the value. -/
theorem uint_binding_rules :
    (∀ (t : Table) (oi : Opt) (id : Nat),
      find_option_long t (chars "indent") = some oi → oi.arg_name ≠ [] →
      oi.arg_type = .uint_arg → oi.bound_var = some id →
      (parse t [chars "--indent=-32"]).1 = .error (.rangeError (chars "--indent")) ∧
      (parse t [chars "--indent=two"]).1 = .error (.typeMismatch (chars "--indent")) ∧
      ((parse t [chars "--indent=13"]).1.isOk = true ∧
        lookupUint (parse t [chars "--indent=13"]).2 id = some 13)) ∧
    (∀ (opt : Opt) (id : Nat) (item : Item) (store : Store),
      opt.bound_var = some id → opt.arg_type = .uint_arg →
      (stollOn item.argument = .invalidArg →
        write_option_argument opt item store =
          .error (.typeMismatch item.original_without_argument)) ∧
      (stollOn item.argument = .outOfRange →
        write_option_argument opt item store =
          .error (.rangeError item.original_without_argument)) ∧
      (∀ v pos, stollOn item.argument = .ok v pos →
        (pos ≠ item.argument.length →
          write_option_argument opt item store =
            .error (.typeMismatch item.original_without_argument)) ∧
        (pos = item.argument.length → v < 0 →
          write_option_argument opt item store =
            .error (.rangeError item.original_without_argument)) ∧
        (pos = item.argument.length → 0 ≤ v → uintMax < v →
          write_option_argument opt item store =
            .error (.rangeError item.original_without_argument)) ∧
        (pos = item.argument.length → 0 ≤ v → v ≤ uintMax →
          write_option_argument opt item store =
            .ok (store ++ [.uintW id v.toNat])))) := by
  constructor
  · intro t oi id hf hArg hTy hBv
    have e1 : classifyToken (chars "--indent=-32") =
        .longOpt (chars "--indent=-32") (chars "--indent") (chars "indent")
          (some (chars "-32")) := by decide
    have e2 : classifyToken (chars "--indent=two") =
        .longOpt (chars "--indent=two") (chars "--indent") (chars "indent")
          (some (chars "two")) := by decide
    have e3 : classifyToken (chars "--indent=13") =
        .longOpt (chars "--indent=13") (chars "--indent") (chars "indent")
          (some (chars "13")) := by decide
    refine ⟨?_, ?_, ?_⟩
    · simp +decide [parse, runTokens, parseStep, parse_argument, e1, handleLong,
        emitLongAssign, hf, hArg, write_option_argument, hBv, hTy, stollOn]
    · simp +decide [parse, runTokens, parseStep, parse_argument, e2, handleLong,
        emitLongAssign, hf, hArg, write_option_argument, hBv, hTy, stollOn]
    · cases hbf : oi.bound_flag <;>
        simp +decide [parse, runTokens, parseStep, parse_argument, e3, handleLong,
          emitLongAssign, hf, hArg, write_option_argument, hBv, hTy, stollOn, writeBool,
          hbf, lookupUint, digitsVal, llongMax, llongMin, uintMax, Except.isOk,
          Except.toBool]
  · intro opt id item store hBv hTy
    refine ⟨?_, ?_, ?_⟩
    · intro h; simp [write_option_argument, hBv, hTy, h]
    · intro h; simp [write_option_argument, hBv, hTy, h]
    · intro v pos h
      refine ⟨?_, ?_, ?_, ?_⟩
      · intro hpos; simp [write_option_argument, hBv, hTy, h, hpos]
      · intro hpos hneg
        simp [write_option_argument, hBv, hTy, h, hpos, hneg]
      · intro hpos hnn hbig
        have h1 : ¬ v < 0 := by omega
        simp [write_option_argument, hBv, hTy, h, hpos, h1, hbig]
      · intro hpos hnn hle
        have h1 : ¬ v < 0 := by omega
        have h2 : ¬ uintMax < v := by omega
        simp [write_option_argument, hBv, hTy, h, hpos, h1, h2]

/-- Sample option with long name indent bound to an unsigned variable at
address 1. -/
def wOptIndent : Opt :=
  { long_name := chars "indent", arg_name := chars "WIDTH",
    arg_type := .uint_arg, bound_var := some 1 }

/-- Sample table for the unsigned-binding scenario. -/
def wTableIndent : Table := [{ options := [wOptIndent] }]

/-- C4 witness: the three concrete indent behaviors at a concrete
table. -/
theorem uint_binding_rules_witness :
    (parse wTableIndent [chars "--indent=-32"]).1 =
      .error (.rangeError (chars "--indent")) ∧
    (parse wTableIndent [chars "--indent=two"]).1 =
      .error (.typeMismatch (chars "--indent")) ∧
    ((parse wTableIndent [chars "--indent=13"]).1.isOk = true ∧
      lookupUint (parse wTableIndent [chars "--indent=13"]).2 1 = some 13) :=
  uint_binding_rules.1 wTableIndent wOptIndent 1 rfl (by decide) rfl rfl

end Optionpp

namespace Optionpp

/-- Success shape of emitWithArg: the binder succeeded and exactly the
given entry was appended. -/
lemma emitWithArg_ok_shape (opt : Opt) (info : Item) (res : List Item)
    (store1 : Store) {res' : List Item} {ty : ClArgType} {st : Store}
    (h : emitWithArg opt info res store1 = (.ok (res', ty), st)) :
    res' = res ++ [info] ∧ ty = .no_arg ∧
      write_option_argument opt info store1 = .ok st := by
  unfold emitWithArg at h
  cases hw : write_option_argument opt info store1 <;> rw [hw] at h <;> simp_all

/-- Success shape of emitLongAssign. -/
lemma emitLongAssign_ok_shape (opt : Opt) (info : Item) (res : List Item)
    (store : Store) {res' : List Item} {ty : ClArgType} {st : Store}
    (h : emitLongAssign opt info res store = (.ok (res', ty), st)) :
    res' = res ++ [info] ∧ ty = .no_arg ∧
      ∃ st1, write_option_argument opt info store = .ok st1 ∧ st = writeBool opt st1 := by
  unfold emitLongAssign at h
  cases hw : write_option_argument opt info store <;> rw [hw] at h <;> simp_all

/-- Success shape of consumePending: the entry list is the given one. -/
lemma consumePending_ok_shape (last' : Item) (result' : List Item)
    (store : Store) {res' : List Item} {ty : ClArgType} {st : Store}
    (h : consumePending last' result' store = (.ok (res', ty), st)) :
    res' = result' ∧ ty = .non_option := by
  unfold consumePending at h
  cases ho : last'.opt_info with
  | none => rw [ho] at h; simp_all
  | some opt =>
    rw [ho] at h
    dsimp only at h
    cases hw : write_option_argument opt last' store <;> rw [hw] at h <;> simp_all

/-- C9 invariant: an entry that is not an option carries no option
names. -/
def NoOptNames (i : Item) : Prop :=
  i.is_option = false → i.long_name = [] ∧ i.short_name = '\x00'

lemma noOptNames_of_option {i : Item} (h : i.is_option = true) : NoOptNames i :=
  fun hb => absurd h (by simp [hb])

/-- Entries appended by parse_short_option_group are all option entries. -/
lemma psog_ok_shape (t : Table) :
    ∀ (cl optArg : Str) (ha : Bool) (res : List Item) (store : Store)
      {res' : List Item} {ty : ClArgType} {st : Store},
      parse_short_option_group t cl optArg ha res store = (.ok (res', ty), st) →
      ∃ news, res' = res ++ news ∧ ∀ i ∈ news, i.is_option = true := by
  intro cl
  induction cl with
  | nil =>
    intro optArg ha res store res' ty st heq
    simp only [parse_short_option_group, Prod.mk.injEq, Except.ok.injEq] at heq
    obtain ⟨⟨rfl, rfl⟩, rfl⟩ := heq
    exact ⟨[], by simp⟩
  | cons c rest ih =>
    intro optArg ha res store res' ty st heq
    unfold parse_short_option_group at heq
    dsimp only at heq
    split at heq
    · simp at heq
    · repeat' split at heq
      all_goals
        first
        | (simp at heq; done)
        | (obtain ⟨news, hres2, hnews⟩ := ih _ _ _ _ heq
           rw [List.append_assoc] at hres2
           refine ⟨_, hres2, ?_⟩
           intro i hi
           rcases List.mem_append.mp hi with hi | hi
           · simp at hi
             subst hi
             rfl
           · exact hnews i hi)
        | (obtain ⟨h1, h2, h3⟩ := emitWithArg_ok_shape _ _ _ _ heq
           subst h1
           exact ⟨[_], rfl, by simp⟩)
        | (simp only [Prod.mk.injEq, Except.ok.injEq] at heq
           obtain ⟨⟨rfl, rfl⟩, rfl⟩ := heq
           exact ⟨[_], rfl, by simp⟩)

/-- Entries appended by handleLong are option entries. -/
lemma handleLong_ok_shape (t : Table) (original spec name : Str)
    (inlineVal : Option Str) (res : List Item) (store : Store)
    {res' : List Item} {ty : ClArgType} {st : Store}
    (heq : handleLong t original spec name inlineVal res store = (.ok (res', ty), st)) :
    ∃ news, res' = res ++ news ∧ ∀ i ∈ news, i.is_option = true := by
  unfold handleLong at heq
  dsimp only at heq
  repeat' split at heq
  all_goals
    first
    | (simp at heq; done)
    | (obtain ⟨h1, h2, h3⟩ := emitLongAssign_ok_shape _ _ _ _ heq
       subst h1
       exact ⟨[_], rfl, by simp⟩)
    | (simp only [Prod.mk.injEq, Except.ok.injEq] at heq
       obtain ⟨⟨rfl, rfl⟩, rfl⟩ := heq
       exact ⟨[_], rfl, by simp⟩)

/-- Entries appended by parse_argument all satisfy the names invariant:
option entries vacuously, plain entries with empty names. -/
lemma parse_argument_ok_shape (t : Table) (arg : Str) (res : List Item)
    (store : Store) {res' : List Item} {ty : ClArgType} {st : Store}
    (heq : parse_argument t arg res store = (.ok (res', ty), st)) :
    ∃ news, res' = res ++ news ∧ ∀ i ∈ news, NoOptNames i := by
  unfold parse_argument at heq
  split at heq
  · simp only [Prod.mk.injEq, Except.ok.injEq] at heq
    obtain ⟨⟨rfl, rfl⟩, rfl⟩ := heq
    exact ⟨[], by simp⟩
  · simp at heq
  · obtain ⟨news, h1, h2⟩ := handleLong_ok_shape t _ _ _ _ res store heq
    exact ⟨news, h1, fun i hi => noOptNames_of_option (h2 i hi)⟩
  · obtain ⟨news, h1, h2⟩ := psog_ok_shape t _ _ _ res store heq
    exact ⟨news, h1, fun i hi => noOptNames_of_option (h2 i hi)⟩
  · simp only [Prod.mk.injEq, Except.ok.injEq] at heq
    obtain ⟨⟨rfl, rfl⟩, rfl⟩ := heq
    refine ⟨[_], rfl, ?_⟩
    intro i hi
    simp at hi
    subst hi
    exact fun _ => ⟨rfl, rfl⟩

/-- One parseStep preserves the names invariant. -/
lemma parseStep_ok_inv (t : Table) (arg : Str) (prev : ClArgType)
    (res : List Item) (store : Store)
    {res' : List Item} {ty : ClArgType} {st : Store}
    (heq : parseStep t arg prev res store = (.ok (res', ty), st))
    (hres : ∀ i ∈ res, NoOptNames i) : ∀ i ∈ res', NoOptNames i := by
  unfold parseStep at heq
  dsimp only at heq
  split at heq
  · split at heq
    · split at heq
      · simp only [Prod.mk.injEq, Except.ok.injEq] at heq
        obtain ⟨⟨rfl, rfl⟩, rfl⟩ := heq
        exact hres
      · rename_i last hlast
        have hmem : last ∈ res := by
          obtain ⟨ys, hys⟩ := List.getLast?_eq_some_iff.mp hlast
          subst hys
          simp
        obtain ⟨h1, h2⟩ := consumePending_ok_shape _ _ _ heq
        subst h1
        intro i hi
        rcases List.mem_append.mp hi with hi | hi
        · exact hres i (List.dropLast_sublist res |>.mem hi)
        · simp at hi
          subst hi
          exact fun hb => hres last hmem hb
    · split at heq
      · simp at heq
      · obtain ⟨news, rfl, hnews⟩ := parse_argument_ok_shape t _ _ _ heq
        intro i hi
        rcases List.mem_append.mp hi with hi | hi
        · exact hres i hi
        · exact hnews i hi
  · split at heq
    · simp only [Prod.mk.injEq, Except.ok.injEq] at heq
      obtain ⟨⟨rfl, rfl⟩, rfl⟩ := heq
      intro i hi
      rcases List.mem_append.mp hi with hi | hi
      · exact hres i hi
      · simp at hi
        subst hi
        exact fun _ => ⟨rfl, rfl⟩
    · obtain ⟨news, rfl, hnews⟩ := parse_argument_ok_shape t _ _ _ heq
      intro i hi
      rcases List.mem_append.mp hi with hi | hi
      · exact hres i hi
      · exact hnews i hi

/-- The token loop preserves the names invariant. -/
lemma runTokens_ok_inv (t : Table) :
    ∀ (ts : List Str) (prev : ClArgType) (res : List Item) (store : Store)
      {res' : List Item} {ty : ClArgType} {st : Store},
      runTokens t ts prev res store = (.ok (res', ty), st) →
      (∀ i ∈ res, NoOptNames i) → ∀ i ∈ res', NoOptNames i := by
  intro ts
  induction ts with
  | nil =>
    intro prev res store res' ty st heq hres
    simp only [runTokens, Prod.mk.injEq, Except.ok.injEq] at heq
    obtain ⟨⟨rfl, rfl⟩, rfl⟩ := heq
    exact hres
  | cons a rest ih =>
    intro prev res store res' ty st heq hres
    unfold runTokens at heq
    split at heq
    · simp at heq
    · rename_i r st1 res1 prev1 hstep
      exact ih _ _ _ heq (parseStep_ok_inv t a prev res store hstep hres)

end Optionpp

namespace Optionpp

/-- C9. Every successfully parsed entry that is not an option has an
empty long name and an absent short name (the null character). -/
theorem non_option_entries_unnamed (t : Table) (ts : List Str)
    (es : List Item) (st : Store) (h : parse t ts = (.ok es, st)) :
    ∀ i ∈ es, i.is_option = false → i.long_name = [] ∧ i.short_name = '\x00' := by
  unfold parse at h
  split at h
  · simp at h
  · rename_i st1 res prev hrun
    split at h
    · simp at h
    · simp only [Prod.mk.injEq, Except.ok.injEq] at h
      obtain ⟨rfl, rfl⟩ := h
      exact runTokens_ok_inv t ts _ _ _ hrun (by simp)

/-- C9 witness: the plain entry produced for a non-option token has empty
names. -/
theorem non_option_entries_unnamed_witness :
    ({ original_text := chars "hello" } : Item).long_name = [] ∧
      ({ original_text := chars "hello" } : Item).short_name = '\x00' :=
  non_option_entries_unnamed [] [chars "hello"] _ _ rfl
    { original_text := chars "hello" } (by simp) rfl

/-- Writing the presence flag only appends to the store. -/
lemma writeBool_grows (opt : Opt) (store : Store) :
    store <+: writeBool opt store := by
  unfold writeBool
  cases opt.bound_flag with
  | none => exact List.prefix_rfl
  | some id => exact List.prefix_append _ _

/-- A successful binder invocation only appends to the store. -/
lemma woa_grows (opt : Opt) (item : Item) (store : Store) {st' : Store}
    (h : write_option_argument opt item store = .ok st') :
    store <+: st' := by
  unfold write_option_argument at h
  repeat' split at h
  all_goals
    first
    | (simp at h; done)
    | (simp only [Except.ok.injEq] at h
       subst h
       first
       | exact List.prefix_rfl
       | exact List.prefix_append _ _)

/-- The store only grows across emitWithArg, error or not. -/
lemma emitWithArg_grows (opt : Opt) (info : Item) (res : List Item)
    (store1 : Store) : store1 <+: (emitWithArg opt info res store1).2 := by
  unfold emitWithArg
  cases hw : write_option_argument opt info store1 with
  | error e => exact List.prefix_rfl
  | ok st2 => exact woa_grows _ _ _ hw

/-- The store only grows across emitLongAssign, error or not. -/
lemma emitLongAssign_grows (opt : Opt) (info : Item) (res : List Item)
    (store : Store) : store <+: (emitLongAssign opt info res store).2 := by
  unfold emitLongAssign
  cases hw : write_option_argument opt info store with
  | error e => exact List.prefix_rfl
  | ok st1 => exact (woa_grows _ _ _ hw).trans (writeBool_grows opt st1)

/-- The store only grows across consumePending, error or not. -/
lemma consumePending_grows (last' : Item) (result' : List Item)
    (store : Store) : store <+: (consumePending last' result' store).2 := by
  unfold consumePending
  cases ho : last'.opt_info with
  | none => exact List.prefix_rfl
  | some opt =>
    dsimp only
    cases hw : write_option_argument opt last' store with
    | error e => exact List.prefix_rfl
    | ok st' => exact woa_grows _ _ _ hw

/-- The store only grows across a short-option group, error or not. -/
lemma psog_store_grows (t : Table) :
    ∀ (cl optArg : Str) (ha : Bool) (res : List Item) (store : Store),
      store <+: (parse_short_option_group t cl optArg ha res store).2 := by
  intro cl
  induction cl with
  | nil =>
    intro optArg ha res store
    exact List.prefix_rfl
  | cons c rest ih =>
    intro optArg ha res store
    unfold parse_short_option_group
    dsimp only
    split
    · exact List.prefix_rfl
    · rename_i opt hf
      repeat' split
      all_goals
        first
        | exact writeBool_grows opt store
        | exact (writeBool_grows opt store).trans (emitWithArg_grows _ _ _ _)
        | exact (writeBool_grows opt store).trans (ih _ _ _ _)

/-- The store only grows across the long-option arm, error or not. -/
lemma handleLong_store_grows (t : Table) (original spec name : Str)
    (inlineVal : Option Str) (res : List Item) (store : Store) :
    store <+: (handleLong t original spec name inlineVal res store).2 := by
  unfold handleLong
  dsimp only
  repeat' split
  all_goals
    first
    | exact List.prefix_rfl
    | exact writeBool_grows _ store
    | exact emitLongAssign_grows _ _ _ _

/-- The store only grows across parse_argument, error or not. -/
lemma parse_argument_store_grows (t : Table) (arg : Str) (res : List Item)
    (store : Store) : store <+: (parse_argument t arg res store).2 := by
  unfold parse_argument
  split
  · exact List.prefix_rfl
  · exact List.prefix_rfl
  · exact handleLong_store_grows t _ _ _ _ res store
  · exact psog_store_grows t _ _ _ res store
  · exact List.prefix_rfl

/-- The store only grows across one token step, error or not. -/
lemma parseStep_store_grows (t : Table) (arg : Str) (prev : ClArgType)
    (res : List Item) (store : Store) :
    store <+: (parseStep t arg prev res store).2 := by
  unfold parseStep
  dsimp only
  repeat' split
  all_goals
    first
    | exact List.prefix_rfl
    | exact consumePending_grows _ _ _
    | exact parse_argument_store_grows t arg res store

/-- The store only grows across the token loop, error or not. -/
lemma runTokens_store_grows (t : Table) :
    ∀ (ts : List Str) (prev : ClArgType) (res : List Item) (store : Store),
      store <+: (runTokens t ts prev res store).2 := by
  intro ts
  induction ts with
  | nil => intro prev res store; exact List.prefix_rfl
  | cons a rest ih =>
    intro prev res store
    unfold runTokens
    split
    · rename_i e st hstep
      have h1 := parseStep_store_grows t a prev res store
      rw [hstep] at h1
      exact h1
    · rename_i st res1 prev1 hstep
      have h1 := parseStep_store_grows t a prev res store
      rw [hstep] at h1
      exact h1.trans (ih _ _ _)

/-- Splitting the token loop at any point: running the concatenation is
running the first part, then the second from the reached state. -/
lemma runTokens_append (t : Table) :
    ∀ (ts1 ts2 : List Str) (prev : ClArgType) (res : List Item) (store : Store),
      runTokens t (ts1 ++ ts2) prev res store =
        match runTokens t ts1 prev res store with
        | (.error e, st) => (.error e, st)
        | (.ok (r, p), st) => runTokens t ts2 p r st := by
  intro ts1
  induction ts1 with
  | nil =>
    intro ts2 prev res store
    simp [runTokens]
  | cons a rest ih =>
    intro ts2 prev res store
    rw [List.cons_append]
    cases hstep : parseStep t a prev res store with
    | mk r st =>
      cases r with
      | error e => simp only [runTokens, hstep]
      | ok v =>
        obtain ⟨res1, prev1⟩ := v
        simp only [runTokens, hstep]
        exact ih _ _ _ _

end Optionpp

namespace Optionpp

/-- C5. Fail-fast: when the step for a token raises an error, the token
loop stops with exactly that error and the store at the throw point,
whatever tokens follow (they are never examined); and every parse either
returns a complete entry sequence or an error, never both. -/
theorem errors_abort_parse :
    (∀ (t : Table) (arg : Str) (prev : ClArgType) (res : List Item) (store : Store)
       (e : ParseErr) (rest : List Str),
      (parseStep t arg prev res store).1 = .error e →
      runTokens t (arg :: rest) prev res store =
        (.error e, (parseStep t arg prev res store).2)) ∧
    (∀ (t : Table) (ts : List Str),
      (∃ es st, parse t ts = (.ok es, st)) ∨ (∃ e st, parse t ts = (.error e, st))) := by
  constructor
  · intro t arg prev res store e rest h
    cases h2 : parseStep t arg prev res store with
    | mk r st =>
      rw [h2] at h
      cases r with
      | error e' =>
        cases h
        simp [runTokens, h2]
      | ok v => simp at h
  · intro t ts
    cases h : parse t ts with
    | mk r st =>
      cases r with
      | error e => exact Or.inr ⟨e, st, rfl⟩
      | ok es => exact Or.inl ⟨es, st, rfl⟩

/-- C5 witness: an unknown option aborts the loop and the following
token is never processed. -/
theorem errors_abort_parse_witness :
    runTokens [] [chars "-x", chars "more"] .non_option [] [] =
      (.error (.invalidOption (chars "-x")), []) :=
  errors_abort_parse.1 [] (chars "-x") .non_option [] []
    (.invalidOption (chars "-x")) [chars "more"] rfl

/-- The entry emitted for a cluster character that takes an argument and
is followed by more characters: everything remaining in the token —
including the re-attached assignment symbol and trailing text when the
token had one — is the argument text. -/
def clusterArgItem (opt : Opt) (c : Char) (rest optArg : Str) (hasArg : Bool) : Item :=
  { original_text :=
      shortOptPre ++ [c] ++ (rest ++ (if hasArg then equalsSym :: optArg else [])),
    original_without_argument := shortOptPre ++ [c],
    is_option := true,
    long_name := opt.long_name,
    short_name := c,
    argument := rest ++ (if hasArg then equalsSym :: optArg else []),
    opt_info := some opt }

/-- C7. In a short-option cluster, when a character resolving to an
argument-taking option is followed by more characters, everything
remaining in the token becomes that option's argument (the assignment
symbol and trailing text re-attached), the binder is invoked
(write_option_argument inside emitWithArg), and processing of the token
stops: for any remaining characters whatsoever — registered or not — the
outcome is a single appended entry (or the binder's error) and no further
lookups. -/
theorem cluster_inline_argument (t : Table) (opt : Opt) (c : Char)
    (rest optArg : Str) (hasArg : Bool) (result : List Item) (store : Store)
    (hf : find_option_short t c = some opt)
    (hArg : opt.arg_name ≠ [])
    (hrest : rest ≠ []) :
    parse_short_option_group t (c :: rest) optArg hasArg result store =
      emitWithArg opt (clusterArgItem opt c rest optArg hasArg) result
        (writeBool opt store) ∧
    ∀ {res' : List Item} {ty : ClArgType} {st : Store},
      parse_short_option_group t (c :: rest) optArg hasArg result store =
        (.ok (res', ty), st) →
      res' = result ++ [clusterArgItem opt c rest optArg hasArg] ∧
      write_option_argument opt (clusterArgItem opt c rest optArg hasArg)
        (writeBool opt store) = .ok st := by
  have hne : ¬ rest.isEmpty := by simpa using hrest
  have h1 : parse_short_option_group t (c :: rest) optArg hasArg result store =
      emitWithArg opt (clusterArgItem opt c rest optArg hasArg) result
        (writeBool opt store) := by
    simp only [parse_short_option_group, hf, hArg, hne]
    simp [clusterArgItem, List.append_assoc]
    exact fun h => absurd h hArg
  refine ⟨h1, ?_⟩
  intro res' ty st heq
  rw [h1] at heq
  obtain ⟨ha, hb, hc⟩ := emitWithArg_ok_shape _ _ _ _ heq
  exact ⟨ha, hc⟩

/-- Sample option o requiring an argument, for the cluster witness. -/
def wOptO : Opt :=
  { short_name := 'o', arg_name := chars "FILE", arg_required := true }

/-- Sample table for the cluster-argument witness. -/
def wTableO : Table := [{ options := [wOptO] }]

/-- C7 witness: parsing the cluster oFILE where o takes an argument. -/
theorem cluster_inline_argument_witness :
    parse_short_option_group wTableO (chars "oFILE") [] false [] [] =
      emitWithArg wOptO (clusterArgItem wOptO 'o' (chars "FILE") [] false) []
        (writeBool wOptO []) :=
  (cluster_inline_argument wTableO wOptO 'o' (chars "FILE") [] false [] []
    rfl (by decide) (by decide)).1

/-- Sample flag a with a bound presence bool at address 0. -/
def wOptPersistA : Opt := { short_name := 'a', bound_flag := some 0 }

/-- Sample option out bound to an unsigned variable at address 1. -/
def wOptPersistOut : Opt :=
  { long_name := chars "out", arg_name := chars "N",
    arg_type := .uint_arg, bound_var := some 1 }

/-- Sample table for the write-persistence scenario. -/
def wTablePersist : Table := [{ options := [wOptPersistA, wOptPersistOut] }]

/-- C10. Writes persist across errors: whatever store the loop has
produced after a prefix of the tokens is a prefix of the final store of
parsing any extension, error or not — raising an error performs no
rollback of earlier bound-variable writes. Concretely, parsing
-a --out=5 -z (with -z unknown) raises invalidOption, yet the bound
presence flag of a reads true and the bound unsigned of out reads 5. -/
theorem writes_persist_on_error :
    (∀ (t : Table) (ts1 ts2 : List Str) (res1 : List Item) (prev1 : ClArgType)
       (st1 : Store),
      runTokens t ts1 .non_option [] [] = (.ok (res1, prev1), st1) →
      (parse t (ts1 ++ ts2)).2.take st1.length = st1) ∧
    ((parse wTablePersist [chars "-a", chars "--out=5", chars "-z"]).1 =
        .error (.invalidOption (chars "-z")) ∧
      lookupBool (parse wTablePersist [chars "-a", chars "--out=5", chars "-z"]).2 0 =
        some true ∧
      lookupUint (parse wTablePersist [chars "-a", chars "--out=5", chars "-z"]).2 1 =
        some 5) := by
  constructor
  · intro t ts1 ts2 res1 prev1 st1 h
    have hpre : st1 <+: (parse t (ts1 ++ ts2)).2 := by
      unfold parse
      rw [runTokens_append, h]
      dsimp only
      cases hr : runTokens t ts2 prev1 res1 st1 with
      | mk r st =>
        have hmono := runTokens_store_grows t ts2 prev1 res1 st1
        rw [hr] at hmono
        cases r with
        | error e => simpa using hmono
        | ok v =>
          obtain ⟨res2, prev2⟩ := v
          by_cases hp : prev2 = ClArgType.arg_required <;> simp [hp] <;> exact hmono
    exact (List.prefix_iff_eq_take.mp hpre).symm
  · refine ⟨rfl, by decide, by decide⟩

/-- C10 witness: the write made for -a persists when -z fails. -/
theorem writes_persist_on_error_witness :
    (parse wTablePersist ([chars "-a"] ++ [chars "-z"])).2.take
        ([WriteEvent.boolW 0 true].length) = [WriteEvent.boolW 0 true] :=
  writes_persist_on_error.1 wTablePersist [chars "-a"] [chars "-z"]
    [{ original_text := chars "-a", original_without_argument := chars "-a",
       is_option := true, long_name := [], short_name := 'a',
       argument := [], opt_info := some wOptPersistA }]
    .no_arg [WriteEvent.boolW 0 true] rfl

end Optionpp
